import Mathlib

/-
Verification of the svgg SVG path parser (src/util.go) against its
natural-language specification.

Modelling conventions:
- Go strings are modelled as `List Char`.  The Go code iterates runes with
  byte indices; for the ASCII path data handled here byte offsets and rune
  positions coincide, so indices are rune positions.
- Go float64 values are modelled as exact rationals.  strconv.ParseFloat is
  modelled by `Svgg.strconvParseFloat`, which accepts the decimal forms of
  Go's float syntax (optional sign, digits with an optional decimal point,
  optional e/E exponent) and yields the exact decimal value; IEEE-754
  rounding, range overflow to infinity, hex floats and inf/nan spellings are
  not modelled (the tokenizer never produces the letters needed for the
  latter two, since every letter other than the exponent marker is a
  separator).
- Go's unicode.IsNumber and unicode.IsLetter are modelled at ASCII
  (Char.isDigit / Char.isAlpha), which agree with Go on all ASCII input.
- The gg.Context drawing sink is modelled as a trace of emitted calls
  (`SinkCall`); functions return the calls they emit, in order, and mutation
  of the Parser struct is modelled by explicit state passing.
- log output in WarnErrorMode is a diagnostic side channel and is not
  modelled; only the skip behaviour is.
-/

namespace Svgg

/-- Errors of the parser.  `paramMismatch`, `commandUnknown` and
`notImplemented` model errParamMismatch, errCommandUnknown and
errNotImplemented from src/util.go (errZeroLengthID and errMissingID are
declared there but unused in this file's code).  `parseFailure` models the
error strconv.ParseFloat returns on malformed numeric text.  `sliceBounds`
models the Go runtime panic raised when addSeg is given an empty segment
string (unreachable from CompilePath, which always passes a segment starting
at a command letter). -/
inductive Err where
  | paramMismatch
  | commandUnknown
  | notImplemented
  | parseFailure
  | sliceBounds
deriving DecidableEq

/-- ErrorMode sets how the parser reacts to unparsed elements (the Go
constants IgnoreErrorMode, WarnErrorMode, StrictErrorMode). -/
inductive ErrorMode where
  | ignore
  | warn
  | strict
deriving DecidableEq

/-- One primitive drawing call emitted to the gg.Context sink: dc.MoveTo,
dc.LineTo or dc.ClosePath. -/
inductive SinkCall where
  | moveTo (x y : ℚ)
  | lineTo (x y : ℚ)
  | closePath
deriving DecidableEq

/-- The Parser struct of src/util.go, with the *gg.Context receiver dropped
(the sink is modelled as an emitted call trace instead).  curX, curY,
cntlPtX and cntlPtY are carried for completeness; no active code path reads
them. -/
structure Parser where
  placeX : ℚ
  placeY : ℚ
  curX : ℚ
  curY : ℚ
  cntlPtX : ℚ
  cntlPtY : ℚ
  pathStartX : ℚ
  pathStartY : ℚ
  points : List ℚ
  lastKey : Char
  errorMode : ErrorMode
  inPath : Bool
deriving DecidableEq

/-- NewParser returns the zero-valued Parser struct; the ErrorMode field is
a parameter here to model callers that set p.ErrorMode before compiling
(the Go zero value is IgnoreErrorMode). -/
def newParser (mode : ErrorMode) : Parser :=
  { placeX := 0, placeY := 0, curX := 0, curY := 0, cntlPtX := 0, cntlPtY := 0,
    pathStartX := 0, pathStartY := 0, points := [], lastKey := Char.ofNat 0,
    errorMode := mode, inPath := false }

/-- Go s[a:b] on byte indices, at rune positions. -/
def listSub (s : List Char) (a b : ℕ) : List Char :=
  (s.drop a).take (b - a)

/-- strings.TrimSuffix: drop the suffix if present, else return unchanged. -/
def trimSuffix (b v : List Char) : List Char :=
  if v.isSuffixOf b then b.take (b.length - v.length) else b

/-- unitSuffixes from src/util.go: suffixes sometimes applied to width and
height attributes. -/
def unitSuffixes : List (List Char) :=
  [['c', 'm'], ['m', 'm'], ['p', 'x'], ['p', 't']]

/-- trimSuffixes removes unitSuffixes from any number that is not just
numeric (returns the input unchanged when it is empty or ends in a digit). -/
def trimSuffixes (a : List Char) : List Char :=
  match a.getLast? with
  | none => a
  | some c => if '0' ≤ c ∧ c ≤ '9' then a else unitSuffixes.foldl trimSuffix a

/-- Numeric value of a run of ASCII digits. -/
def digitsToNat (ds : List Char) : ℕ :=
  ds.foldl (fun acc c => acc * 10 + (c.toNat - Char.toNat '0')) 0

/-- Rational addition, spelled out on numerator and denominator so that it
unfolds during kernel reduction (the library's Rat.add is sealed); equal to
the library addition, see qAdd_eq_add. -/
def qAdd (a b : ℚ) : ℚ :=
  mkRat (a.num * (b.den : ℤ) + b.num * (a.den : ℤ)) (a.den * b.den)

/-- Optional exponent part of a Go float literal: empty, or e/E followed by
an optional sign and a nonempty digit run consuming the rest of the string;
scales the mantissa value by the corresponding power of ten (spelled with
mkRat for kernel reducibility). -/
def withExp (v : ℚ) (s : List Char) : Option ℚ :=
  match s with
  | [] => some v
  | c :: t =>
    if c = 'e' ∨ c = 'E' then
      let st : Bool × List Char :=
        match t with
        | '+' :: r => (false, r)
        | '-' :: r => (true, r)
        | r => (false, r)
      let ds := st.2.takeWhile Char.isDigit
      if ds.isEmpty then none
      else if st.2.dropWhile Char.isDigit ≠ [] then none
      else if st.1 then some (mkRat v.num (v.den * 10 ^ digitsToNat ds))
      else some (mkRat (v.num * (10 : ℤ) ^ digitsToNat ds) v.den)
    else none

/-- Model of strconv.ParseFloat on the decimal forms of Go float syntax,
with exact rational semantics (see the header comment for the deliberate
differences: no IEEE rounding, no range error, no hex/inf/nan forms). -/
def strconvParseFloat (s : List Char) : Option ℚ :=
  let st : ℤ × List Char :=
    match s with
    | '+' :: t => (1, t)
    | '-' :: t => (-1, t)
    | t => (1, t)
  let ip := st.2.takeWhile Char.isDigit
  let s2 := st.2.dropWhile Char.isDigit
  match s2 with
  | '.' :: t =>
    let fp := t.takeWhile Char.isDigit
    let s3 := t.dropWhile Char.isDigit
    if ip.isEmpty ∧ fp.isEmpty then none
    else withExp (mkRat (st.1 * (digitsToNat (ip ++ fp) : ℤ)) (10 ^ fp.length)) s3
  | _ =>
    if ip.isEmpty then none
    else withExp (mkRat (st.1 * (digitsToNat ip : ℤ)) 1) s2

/-- parseFloat from src/util.go: strip unit suffixes, then convert (the
bitSize argument, always 64 at the call sites, is dropped). -/
def parseFloat (s : List Char) : Option ℚ :=
  strconvParseFloat (trimSuffixes s)

/-- Loop body of Parser.ReadFloat.  The first argument is the whole string
being scanned (Go slices it by index); the second is the remaining suffix,
walked structurally, with `i` its starting position.  `last` is the start of
the number currently being read and `isFirst` records whether a decimal
point has not yet been seen in it. -/
def readFloatAux (numStr : List Char) :
    List Char → ℕ → ℕ → Bool → List ℚ → List ℚ × Option Err
  | [], _i, last, _isFirst, pts =>
    match parseFloat (listSub numStr last numStr.length) with
    | none => (pts, some Err.parseFailure)
    | some f => (pts ++ [f], none)
  | n :: rest, i, last, isFirst, pts =>
    if n = '.' then
      if isFirst then readFloatAux numStr rest (i + 1) last false pts
      else
        match parseFloat (listSub numStr last i) with
        | none => (pts, some Err.parseFailure)
        | some f => readFloatAux numStr rest (i + 1) i isFirst (pts ++ [f])
    else readFloatAux numStr rest (i + 1) last isFirst pts

/-- Parser.ReadFloat: reads the floating point values of one number run into
the points slice, splitting at every decimal point after the first. -/
def readFloat (pts : List ℚ) (numStr : List Char) : List ℚ × Option Err :=
  readFloatAux numStr numStr 0 0 true pts

/-- The separator test of Parser.GetPoints:
unicode.IsNumber(r) == false && r != '.' && !(r == '-' && lr == 'e') && r != 'e',
with unicode.IsNumber at ASCII. -/
def isSeparator (r lr : Char) : Bool :=
  !r.isDigit && !(r == '.') && !(r == '-' && lr == 'e') && !(r == 'e')

/-- Loop body of Parser.GetPoints, walking the remaining suffix of the data
string with `i` its starting position, `li` the Go lastIndex (none models
-1) and `lr` the previously seen rune. -/
def getPointsAux (s : List Char) :
    List Char → ℕ → Option ℕ → Char → List ℚ → List ℚ × Option Err
  | [], _i, li, _lr, pts =>
    match li with
    | some l => if l ≠ s.length then readFloat pts (listSub s l s.length) else (pts, none)
    | none => (pts, none)
  | r :: rest, i, li, lr, pts =>
    if isSeparator r lr then
      match li with
      | some l =>
        match readFloat pts (listSub s l i) with
        | (pts2, some e) => (pts2, some e)
        | (pts2, none) =>
          getPointsAux s rest (i + 1) (if r = '-' then some i else none) r pts2
      | none => getPointsAux s rest (i + 1) (if r = '-' then some i else none) r pts
    else getPointsAux s rest (i + 1) (if li = none then some i else li) r pts

/-- Parser.GetPoints: reads the floating point values of an argument run
into a freshly cleared points slice. -/
def getPoints (dataPoints : List Char) : List ℚ × Option Err :=
  getPointsAux dataPoints dataPoints 0 none ' ' []

/-- Parser.valsToAbs: turn the points slice into a running prefix sum
starting from `last` (used by the v and h cases). -/
def valsToAbs (last : ℚ) : List ℚ → List ℚ
  | [] => []
  | x :: xs => qAdd last x :: valsToAbs (qAdd last x) xs

/-- Parser.pointsToAbs at group size 2, the only size the active code calls
it with (via hasSetsOrMore(2, rel) in the m case): each coordinate pair is
offset by the previous absolute position, starting from the cursor.
Callers guarantee the list has even, positive length. -/
def pointsToAbs2 (lastX lastY : ℚ) : List ℚ → List ℚ
  | x :: y :: rest => qAdd x lastX :: qAdd y lastY :: pointsToAbs2 (qAdd x lastX) (qAdd y lastY) rest
  | rest => rest

/-- Parser.hasSetsOrMore: check that the points count is a positive multiple
of sz and, for relative commands, convert the points to absolute
coordinates (conversion modelled at sz = 2, the only live call). -/
def hasSetsOrMore (p : Parser) (sz : ℕ) (rel : Bool) : Parser × Bool :=
  if ¬(sz ≤ p.points.length ∧ p.points.length % sz = 0) then (p, false)
  else if rel then ({ p with points := pointsToAbs2 p.placeX p.placeY p.points }, true)
  else (p, true)

/-- The line-emitting loop of the M case of Parser.addSeg:
for i := 2; i < l-1; i += 2 emit LineTo(points[i], points[i+1]), modelled as
pair recursion over the points slice dropped by 2. -/
def lineToCalls : List ℚ → List SinkCall
  | x :: y :: rest => SinkCall.lineTo x y :: lineToCalls rest
  | _ => []

/-- Command letters whose addSeg cases are stubs returning errNotImplemented
(line, horizontal/vertical line, all curve families and arcs). -/
def notImplLetter (k : Char) : Bool :=
  k == 'l' || k == 'L' || k == 'v' || k == 'V' || k == 'h' || k == 'H' ||
  k == 'q' || k == 'Q' || k == 't' || k == 'T' || k == 'c' || k == 'C' ||
  k == 's' || k == 'S' || k == 'a' || k == 'A'

/-- The switch statement of Parser.addSeg, acting after GetPoints has filled
p.points.  Returns the updated parser, the sink calls emitted by this
segment, and the error if any.  The common tail `p.lastKey = k` runs on
every path that does not return an error.  The v and h cases run valsToAbs
before falling through to the not-implemented return; WarnErrorMode's log
line is not modelled (only the skip). -/
def addSegSwitch (p : Parser) (k : Char) : Parser × List SinkCall × Option Err :=
  if k = 'z' ∨ k = 'Z' then
    if p.points.length ≠ 0 then (p, [], some Err.paramMismatch)
    else if p.inPath then
      ({ p with placeX := p.pathStartX, placeY := p.pathStartY, inPath := false,
                lastKey := k }, [], none)
    else ({ p with lastKey := k }, [], none)
  else if k = 'm' ∨ k = 'M' then
    match hasSetsOrMore p 2 (k = 'm') with
    | (p2, false) => (p2, [], some Err.paramMismatch)
    | (p2, true) =>
      ({ p2 with pathStartX := p2.points.getD 0 0, pathStartY := p2.points.getD 1 0,
                 inPath := true,
                 placeX := p2.points.getD (p2.points.length - 2) 0,
                 placeY := p2.points.getD (p2.points.length - 1) 0,
                 lastKey := k },
       SinkCall.moveTo (p2.points.getD 0 0) (p2.points.getD 1 0) ::
         lineToCalls (p2.points.drop 2),
       none)
  else if k = 'v' then
    ({ p with points := valsToAbs p.placeY p.points }, [], some Err.notImplemented)
  else if k = 'h' then
    ({ p with points := valsToAbs p.placeX p.points }, [], some Err.notImplemented)
  else if notImplLetter k then (p, [], some Err.notImplemented)
  else if p.errorMode = ErrorMode.strict then (p, [], some Err.commandUnknown)
  else ({ p with lastKey := k }, [], none)

/-- Parser.addSeg: decode one segment string (command letter followed by its
argument text).  GetPoints runs first; a tokenize error aborts before the
switch.  An empty segment models Go's out-of-range panic on segString[0]
(unreachable from CompilePath). -/
def addSeg (p : Parser) (seg : List Char) : Parser × List SinkCall × Option Err :=
  match seg with
  | [] => (p, [], some Err.sliceBounds)
  | k :: rest =>
    match getPoints rest with
    | (pts, some e) => ({ p with points := pts }, [], some e)
    | (pts, none) => addSegSwitch { p with points := pts } k

/-- Parser.init: the reset performed at the start of every CompilePath call.
Only the cursor, the points slice, the last command and the open-subpath
flag are reset; pathStart, the control point and the unused cur fields are
left as they were. -/
def Parser.init (p : Parser) : Parser :=
  { p with placeX := 0, placeY := 0, points := [], lastKey := ' ', inPath := false }

/-- The boundary test of the CompilePath scan:
unicode.IsLetter(v) && v != 'e', with unicode.IsLetter at ASCII.  Note that
only the lowercase exponent marker is excluded. -/
def isCmdBoundary (v : Char) : Bool :=
  v.isAlpha && !(v == 'e')

/-- Loop body of Parser.CompilePath: walk the remaining suffix of the path
string (with `i` its starting position and `li` the Go lastIndex, none
modelling -1), pass each completed segment to addSeg, abort on the first
error, and emit the final ClosePath on success. -/
def compilePathAux (s : List Char) :
    List Char → ℕ → Option ℕ → Parser → Parser × List SinkCall × Option Err
  | [], _i, li, p =>
    match li with
    | some l =>
      match addSeg p (listSub s l s.length) with
      | (p2, calls, some e) => (p2, calls, some e)
      | (p2, calls, none) => (p2, calls ++ [SinkCall.closePath], none)
    | none => (p, [SinkCall.closePath], none)
  | v :: rest, i, li, p =>
    if isCmdBoundary v then
      match li with
      | some l =>
        match addSeg p (listSub s l i) with
        | (p2, calls, some e) => (p2, calls, some e)
        | (p2, calls, none) =>
          let r := compilePathAux s rest (i + 1) (some i) p2
          (r.1, calls ++ r.2.1, r.2.2)
      | none => compilePathAux s rest (i + 1) (some i) p
    else compilePathAux s rest (i + 1) li p

/-- Parser.CompilePath: reset the parser state, translate the path string
segment by segment, and on success emit the trailing dc.ClosePath.  The
sink-call trace is returned alongside the final state and error. -/
def compilePath (p : Parser) (svgPath : List Char) : Parser × List SinkCall × Option Err :=
  compilePathAux svgPath svgPath 0 none p.init

/-- The segment decomposition performed by the CompilePath scan, as a
standalone function: the same boundary walk as compilePathAux, collecting
the segment slices instead of running them.  compilePath_eq_runSegs proves
that CompilePath is the fold of addSeg over this list. -/
def splitAux (s : List Char) : List Char → ℕ → Option ℕ → List (List Char)
  | [], _i, li =>
    match li with
    | some l => [listSub s l s.length]
    | none => []
  | v :: rest, i, li =>
    if isCmdBoundary v then
      match li with
      | some l => listSub s l i :: splitAux s rest (i + 1) (some i)
      | none => splitAux s rest (i + 1) (some i)
    else splitAux s rest (i + 1) li

/-- Segments of a path string, in order. -/
def splitSegments (s : List Char) : List (List Char) :=
  splitAux s s 0 none

/-- Run addSeg over a list of segments, stopping at the first error and
concatenating the emitted sink calls. -/
def runSegs (p : Parser) : List (List Char) → Parser × List SinkCall × Option Err
  | [] => (p, [], none)
  | seg :: rest =>
    match addSeg p seg with
    | (p1, calls, some e) => (p1, calls, some e)
    | (p1, calls, none) =>
      let r := runSegs p1 rest
      (r.1, calls ++ r.2.1, r.2.2)

/-- Append the trailing dc.ClosePath of CompilePath on the success path. -/
def postClose : Parser × List SinkCall × Option Err → Parser × List SinkCall × Option Err
  | (p, t, some e) => (p, t, some e)
  | (p, t, none) => (p, t ++ [SinkCall.closePath], none)

/-- Interleave a list of coordinate pairs into a flat coordinate list; every
even-length points list is flattenPairs of its pairs. -/
def flattenPairs : List (ℚ × ℚ) → List ℚ
  | [] => []
  | q :: rest => q.1 :: q.2 :: flattenPairs rest

/-- Command letters with a dedicated (non-default) case in the addSeg
switch. -/
def recognizedCmd (k : Char) : Bool :=
  k == 'z' || k == 'Z' || k == 'm' || k == 'M' || notImplLetter k

/-- Test path strings used in the concrete theorems below. -/
def pathDoubleDot : List Char := "1.5.5".toList

def pathExpMinus : List Char := "1e-5".toList

def pathUpperExp : List Char := "M1E2 3".toList

def pathLowerExp : List Char := "M1e2 3".toList

def pathTriangle : List Char := "M75 0, 0 200, 150 200 Z".toList

def pathRelMove : List Char := "m10 10".toList

def pathOddArgs : List Char := "M1 2 3".toList

def pathUnknownX : List Char := "M1 2 X5 5".toList

def pathNotImpl : List Char := "M1 2 L3 4".toList

def pathBadFloat : List Char := "L.".toList

def segUpperM1 : List Char := "M1".toList

def segUpperE : List Char := "E2 3".toList

theorem qAdd_eq_add (a b : ℚ) : qAdd a b = a + b :=
  (Rat.add_def' a b).symm

theorem listSub_append_left (l₁ l₂ : List Char) : listSub (l₁ ++ l₂) 0 l₁.length = l₁ := by
  simp [listSub, List.take_left]

theorem listSub_append_right (l₁ l₂ : List Char) :
    listSub (l₁ ++ l₂) l₁.length (l₁ ++ l₂).length = l₂ := by
  simp [listSub, List.drop_left]

/-- Scanning a dot-free stretch of the number string leaves the ReadFloat
loop state unchanged apart from the position. -/
theorem readFloatAux_skip (numStr w rest : List Char) (hw : '.' ∉ w) :
    ∀ (i last : ℕ) (isFirst : Bool) (pts : List ℚ),
      readFloatAux numStr (w ++ rest) i last isFirst pts =
        readFloatAux numStr rest (i + w.length) last isFirst pts := by
  induction w with
  | nil => intro i last isFirst pts; simp
  | cons c w ih =>
    intro i last isFirst pts
    have hc : ¬(c = '.') := fun h => hw (h ▸ List.mem_cons_self c w)
    have hw' : '.' ∉ w := fun h => hw (List.mem_cons_of_mem c h)
    have harith : i + 1 + w.length = i + (w.length + 1) := by omega
    simp only [List.cons_append, readFloatAux, hc, if_false, List.length_cons]
    exact (ih hw' (i + 1) last isFirst pts).trans (by rw [harith])

theorem listSub_first_chunk (u1 u2 v : List Char) :
    listSub (u1 ++ '.' :: (u2 ++ '.' :: v)) 0 (u1.length + 1 + u2.length) =
      u1 ++ '.' :: u2 := by
  have h : u1 ++ '.' :: (u2 ++ '.' :: v) = (u1 ++ '.' :: u2) ++ '.' :: v := by
    simp [List.append_assoc]
  have hl : (u1 ++ '.' :: u2).length = u1.length + 1 + u2.length := by
    simp [List.length_append]; omega
  rw [h, ← hl]
  exact listSub_append_left (u1 ++ '.' :: u2) ('.' :: v)

theorem listSub_second_chunk (u1 u2 v : List Char) :
    listSub (u1 ++ '.' :: (u2 ++ '.' :: v)) (u1.length + 1 + u2.length)
      (u1 ++ '.' :: (u2 ++ '.' :: v)).length = '.' :: v := by
  have h : u1 ++ '.' :: (u2 ++ '.' :: v) = (u1 ++ '.' :: u2) ++ '.' :: v := by
    simp [List.append_assoc]
  have hl : (u1 ++ '.' :: u2).length = u1.length + 1 + u2.length := by
    simp [List.length_append]; omega
  rw [h, ← hl]
  exact listSub_append_right (u1 ++ '.' :: u2) ('.' :: v)

/-- A decimal point that follows an already-seen decimal point within the
same number run terminates the previous number there and starts a new one
at the second point itself: the run splits into the text before the second
point and the text from the second point on, each converted separately. -/
theorem readFloat_splits_at_second_dot
    (u1 u2 v : List Char) (a b : ℚ)
    (h1 : '.' ∉ u1) (h2 : '.' ∉ u2) (h3 : '.' ∉ v)
    (ha : parseFloat (u1 ++ '.' :: u2) = some a)
    (hb : parseFloat ('.' :: v) = some b) :
    readFloat [] (u1 ++ '.' :: (u2 ++ '.' :: v)) = ([a, b], none) := by
  have step1 :
      readFloat [] (u1 ++ '.' :: (u2 ++ '.' :: v)) =
        readFloatAux (u1 ++ '.' :: (u2 ++ '.' :: v)) ('.' :: (u2 ++ '.' :: v))
          u1.length 0 true [] := by
    have := readFloatAux_skip (u1 ++ '.' :: (u2 ++ '.' :: v)) u1
      ('.' :: (u2 ++ '.' :: v)) h1 0 0 true []
    simpa [readFloat] using this
  have step2 :
      readFloatAux (u1 ++ '.' :: (u2 ++ '.' :: v)) ('.' :: (u2 ++ '.' :: v))
          u1.length 0 true [] =
        readFloatAux (u1 ++ '.' :: (u2 ++ '.' :: v)) (u2 ++ '.' :: v)
          (u1.length + 1) 0 false [] := by
    simp [readFloatAux]
  have step3 :
      readFloatAux (u1 ++ '.' :: (u2 ++ '.' :: v)) (u2 ++ '.' :: v)
          (u1.length + 1) 0 false [] =
        readFloatAux (u1 ++ '.' :: (u2 ++ '.' :: v)) ('.' :: v)
          (u1.length + 1 + u2.length) 0 false [] :=
    readFloatAux_skip (u1 ++ '.' :: (u2 ++ '.' :: v)) u2 ('.' :: v) h2
      (u1.length + 1) 0 false []
  have step4 :
      readFloatAux (u1 ++ '.' :: (u2 ++ '.' :: v)) ('.' :: v)
          (u1.length + 1 + u2.length) 0 false [] =
        readFloatAux (u1 ++ '.' :: (u2 ++ '.' :: v)) v
          (u1.length + 1 + u2.length + 1) (u1.length + 1 + u2.length) false [a] := by
    simp only [readFloatAux, if_true, Bool.false_eq_true, if_false,
      listSub_first_chunk u1 u2 v, ha]
    simp
  have step5 :
      readFloatAux (u1 ++ '.' :: (u2 ++ '.' :: v)) v
          (u1.length + 1 + u2.length + 1) (u1.length + 1 + u2.length) false [a] =
        readFloatAux (u1 ++ '.' :: (u2 ++ '.' :: v)) []
          (u1.length + 1 + u2.length + 1 + v.length)
          (u1.length + 1 + u2.length) false [a] := by
    have := readFloatAux_skip (u1 ++ '.' :: (u2 ++ '.' :: v)) v [] h3
      (u1.length + 1 + u2.length + 1) (u1.length + 1 + u2.length) false [a]
    simpa using this
  have step6 :
      readFloatAux (u1 ++ '.' :: (u2 ++ '.' :: v)) []
          (u1.length + 1 + u2.length + 1 + v.length)
          (u1.length + 1 + u2.length) false [a] = ([a, b], none) := by
    simp only [readFloatAux, listSub_second_chunk u1 u2 v, hb]
    rfl
  rw [step1, step2, step3, step4, step5, step6]

/-- The CompilePath loop is the fold of addSeg over the segment list, with
the trailing ClosePath appended on success. -/
theorem compilePathAux_eq_postClose (s : List Char) :
    ∀ (rest : List Char) (i : ℕ) (li : Option ℕ) (p : Parser),
      compilePathAux s rest i li p = postClose (runSegs p (splitAux s rest i li)) := by
  intro rest
  induction rest with
  | nil =>
    intro i li p
    cases li with
    | none => simp [compilePathAux, splitAux, runSegs, postClose]
    | some l =>
      simp only [compilePathAux, splitAux, runSegs]
      rcases h : addSeg p (listSub s l s.length) with ⟨p2, calls, e⟩
      cases e <;> simp [h, postClose]
  | cons v rest ih =>
    intro i li p
    cases hb : isCmdBoundary v with
    | false => simp [compilePathAux, splitAux, hb, ih]
    | true =>
      cases li with
      | none => simp [compilePathAux, splitAux, hb, ih]
      | some l =>
        simp only [compilePathAux, splitAux, hb, if_true]
        rcases h : addSeg p (listSub s l i) with ⟨p2, calls, e⟩
        cases e with
        | some e => simp [h, runSegs, postClose]
        | none =>
          simp only [h, runSegs]
          rw [ih]
          rcases h2 : runSegs p2 (splitAux s rest (i + 1) (some i)) with ⟨p3, t, e2⟩
          cases e2 <;> simp [postClose, h2]

theorem compilePath_eq_postClose (p : Parser) (s : List Char) :
    compilePath p s = postClose (runSegs p.init (splitSegments s)) :=
  compilePathAux_eq_postClose s s 0 none p.init

/-- Once a segment has errored, appending further segments changes nothing:
the remainder of the path string is not processed. -/
theorem runSegs_append_of_isSome (segs1 : List (List Char)) :
    ∀ (p : Parser) (segs2 : List (List Char)), (runSegs p segs1).2.2.isSome →
      runSegs p (segs1 ++ segs2) = runSegs p segs1 := by
  induction segs1 with
  | nil => intro p segs2 h; simp [runSegs] at h
  | cons seg segs1 ih =>
    intro p segs2 h
    simp only [List.cons_append, runSegs]
    rcases ha : addSeg p seg with ⟨p1, calls, e⟩
    cases e with
    | some e => simp [ha]
    | none =>
      have h' : (runSegs p1 segs1).2.2.isSome := by
        simpa [runSegs, ha] using h
      simp [ha, ih p1 segs2 h']

/-- If every segment before `seg` succeeds and `seg` errors, the whole run
returns that error with the successful prefix's calls followed by the
erroring segment's calls, independent of the remaining segments. -/
theorem runSegs_error_decompose (segs1 : List (List Char)) :
    ∀ (p : Parser) (seg : List Char) (segs2 : List (List Char)) (e : Err),
      (runSegs p segs1).2.2 = none →
      (addSeg (runSegs p segs1).1 seg).2.2 = some e →
      runSegs p (segs1 ++ seg :: segs2) =
        ((addSeg (runSegs p segs1).1 seg).1,
         (runSegs p segs1).2.1 ++ (addSeg (runSegs p segs1).1 seg).2.1, some e) := by
  induction segs1 with
  | nil =>
    intro p seg segs2 e _h1 h2
    simp only [runSegs] at h2 ⊢
    rcases ha : addSeg p seg with ⟨p1, calls, e'⟩
    rw [ha] at h2
    simp only at h2
    simp [List.nil_append, runSegs, ha, h2]
  | cons sg segs1 ih =>
    intro p seg segs2 e h1 h2
    rcases ha : addSeg p sg with ⟨p1, calls, e'⟩
    cases e' with
    | some e' => simp [runSegs, ha] at h1
    | none =>
      have h1' : (runSegs p1 segs1).2.2 = none := by
        simpa [runSegs, ha] using h1
      have h2' : (addSeg (runSegs p1 segs1).1 seg).2.2 = some e := by
        simpa [runSegs, ha] using h2
      simp only [List.cons_append, runSegs, ha, List.append_eq]
      rw [ih p1 seg segs2 e h1' h2']
      simp [runSegs, ha]

theorem closePath_not_mem_lineToCalls : ∀ pts : List ℚ, SinkCall.closePath ∉ lineToCalls pts
  | [] => by simp [lineToCalls]
  | [_x] => by simp [lineToCalls]
  | _x :: _y :: rest => by
    simp only [lineToCalls, List.mem_cons]
    rintro (h | h)
    · exact SinkCall.noConfusion h
    · exact closePath_not_mem_lineToCalls rest h

/-- No branch of addSeg ever emits a ClosePath call: the only ClosePath of a
compile is the trailing one CompilePath itself emits. -/
theorem addSeg_trace_no_closePath (p : Parser) (seg : List Char) :
    SinkCall.closePath ∉ (addSeg p seg).2.1 := by
  match seg with
  | [] => simp [addSeg]
  | k :: rest =>
    simp only [addSeg]
    rcases hg : getPoints rest with ⟨pts, e⟩
    cases e with
    | some e => simp
    | none =>
      simp only [addSegSwitch]
      split_ifs <;> try simp
      rcases hs : hasSetsOrMore { p with points := pts } 2 (k = 'm') with ⟨p2, ok⟩
      cases ok <;>
        simp [List.mem_cons, closePath_not_mem_lineToCalls (p2.points.drop 2)]

theorem runSegs_trace_no_closePath (segs : List (List Char)) :
    ∀ p : Parser, SinkCall.closePath ∉ (runSegs p segs).2.1 := by
  induction segs with
  | nil => intro p; simp [runSegs]
  | cons seg segs ih =>
    intro p
    rcases ha : addSeg p seg with ⟨p1, calls, e⟩
    have hseg := addSeg_trace_no_closePath p seg
    rw [ha] at hseg
    cases e with
    | some e => simpa [runSegs, ha] using hseg
    | none =>
      simp only [runSegs, ha, List.mem_append]
      rintro (h | h)
      · exact hseg h
      · exact ih p1 h

/-- C1: for every numeric argument run, a decimal point that appears after
an already-seen decimal point within the same number terminates the previous
number and starts a new one at that point (the text before the second point
and the text from the second point on are converted separately); in
particular tokenizing "1.5.5" yields exactly the two values [1.5, 0.5]. -/
theorem claim1_second_decimal_point_starts_new_number :
    (∀ (u1 u2 v : List Char) (a b : ℚ),
        '.' ∉ u1 → '.' ∉ u2 → '.' ∉ v →
        parseFloat (u1 ++ '.' :: u2) = some a →
        parseFloat ('.' :: v) = some b →
        readFloat [] (u1 ++ '.' :: (u2 ++ '.' :: v)) = ([a, b], none))
    ∧ getPoints pathDoubleDot = ([mkRat 3 2, mkRat 1 2], none)
    ∧ mkRat 3 2 = (3 : ℚ) / 2 ∧ mkRat 1 2 = (1 : ℚ) / 2 := by
  refine ⟨readFloat_splits_at_second_dot, by decide, ?_, ?_⟩ <;>
    rw [Rat.mkRat_eq_divInt, Rat.divInt_eq_div] <;> norm_num

theorem claim1_witness :
    readFloat [] (['1'] ++ '.' :: (['5'] ++ '.' :: ['5'])) =
      ([mkRat 3 2, mkRat 1 2], none) :=
  claim1_second_decimal_point_starts_new_number.1 ['1'] ['5'] ['5']
    (mkRat 3 2) (mkRat 1 2) (by decide) (by decide) (by decide) (by decide) (by decide)

/-- C2: the lowercase exponent marker e is not a number boundary for the
tokenizer's separator test, nor is a minus sign immediately following e,
so tokenizing "1e-5" yields exactly the single value 1e-5, not two
values. -/
theorem claim2_lowercase_exponent_not_boundary :
    (∀ lr : Char, isSeparator 'e' lr = false)
    ∧ isSeparator '-' 'e' = false
    ∧ getPoints pathExpMinus = ([mkRat 1 100000], none)
    ∧ mkRat 1 100000 = (1 : ℚ) / 100000 := by
  refine ⟨fun lr => by simp [isSeparator], by decide, by decide, ?_⟩
  rw [Rat.mkRat_eq_divInt, Rat.divInt_eq_div]; norm_num

theorem claim2_witness : isSeparator 'e' 'x' = false :=
  claim2_lowercase_exponent_not_boundary.1 'x'

/-- C3 counterexample: the claim that uppercase E is treated the same as
lowercase e is false at the explicit input "M1E2 3" — E is a command-letter
boundary for the splitter and a number boundary for the tokenizer, and
compiling "M1E2 3" does not behave like its lowercase equivalent
"M1e2 3". -/
theorem claim3_counterexample :
    isCmdBoundary 'E' = true ∧ isSeparator 'E' '1' = true ∧
    (compilePath (newParser ErrorMode.ignore) pathUpperExp).2 ≠
      (compilePath (newParser ErrorMode.ignore) pathLowerExp).2 := by
  exact ⟨by decide, by decide, by decide⟩

/-- C3 amended: only the lowercase exponent marker e is exempt from the
boundary tests; uppercase E is a command-letter boundary in the path
splitter and a number boundary in the tokenizer, so "M1E2 3" splits into the
segments "M1" and "E2 3" and CompilePath fails with ParamMismatch, unlike
"M1e2 3" which compiles to a single move(100, 3). -/
theorem claim3_amended_uppercase_E_is_boundary :
    isCmdBoundary 'E' = true
    ∧ (∀ lr : Char, isSeparator 'E' lr = true)
    ∧ splitSegments pathUpperExp = [segUpperM1, segUpperE]
    ∧ (compilePath (newParser ErrorMode.ignore) pathUpperExp).2 =
        ([], some Err.paramMismatch)
    ∧ (compilePath (newParser ErrorMode.ignore) pathLowerExp).2 =
        ([SinkCall.moveTo 100 3, SinkCall.closePath], none) := by
  exact ⟨by decide, fun lr => by simp [isSeparator], by decide, by decide, by decide⟩

theorem claim3_amended_witness : isSeparator 'E' 'e' = true :=
  claim3_amended_uppercase_E_is_boundary.2.1 'e'

theorem flattenPairs_length : ∀ qs : List (ℚ × ℚ), (flattenPairs qs).length = 2 * qs.length
  | [] => rfl
  | _q :: qs => by simp [flattenPairs, flattenPairs_length qs]; omega

theorem lineToCalls_flattenPairs : ∀ qs : List (ℚ × ℚ),
    lineToCalls (flattenPairs qs) = qs.map (fun q => SinkCall.lineTo q.1 q.2)
  | [] => by simp [flattenPairs, lineToCalls]
  | _q :: qs => by simp [flattenPairs, lineToCalls, lineToCalls_flattenPairs qs]

theorem getD_pairs_last_fst : ∀ (qs : List (ℚ × ℚ)) (x y : ℚ),
    (x :: y :: flattenPairs qs).getD ((x :: y :: flattenPairs qs).length - 2) 0 =
      (qs.getLastD (x, y)).1
  | [], x, y => by simp [flattenPairs]
  | q :: qs, x, y => by
    have h := getD_pairs_last_fst qs q.1 q.2
    simp only [flattenPairs, List.length_cons, List.getLastD_cons] at h ⊢
    have e : (flattenPairs qs).length + 1 + 1 + 1 + 1 - 2 =
        ((flattenPairs qs).length + 1 + 1 - 2) + 1 + 1 := by omega
    rw [e, List.getD_cons_succ, List.getD_cons_succ]
    exact h

theorem getD_pairs_last_snd : ∀ (qs : List (ℚ × ℚ)) (x y : ℚ),
    (x :: y :: flattenPairs qs).getD ((x :: y :: flattenPairs qs).length - 1) 0 =
      (qs.getLastD (x, y)).2
  | [], x, y => by simp [flattenPairs]
  | q :: qs, x, y => by
    have h := getD_pairs_last_snd qs q.1 q.2
    simp only [flattenPairs, List.length_cons, List.getLastD_cons] at h ⊢
    have e : (flattenPairs qs).length + 1 + 1 + 1 + 1 - 1 =
        ((flattenPairs qs).length + 1 + 1 - 1) + 1 + 1 := by omega
    rw [e, List.getD_cons_succ, List.getD_cons_succ]
    exact h

theorem hasSetsOrMore_pairs (p : Parser) (x y : ℚ) (qs : List (ℚ × ℚ))
    (hp : p.points = x :: y :: flattenPairs qs) :
    hasSetsOrMore p 2 false = (p, true) := by
  have hcond : 2 ≤ p.points.length ∧ p.points.length % 2 = 0 := by
    rw [hp]
    refine ⟨by simp, ?_⟩
    simp [flattenPairs_length]
    omega
  simp [hasSetsOrMore, hcond]

/-- The full effect of an absolute MoveTo dispatch on points (x,y) :: qs. -/
theorem addSegSwitch_M (p : Parser) (x y : ℚ) (qs : List (ℚ × ℚ))
    (hp : p.points = x :: y :: flattenPairs qs) :
    addSegSwitch p 'M' =
      ({ p with pathStartX := x, pathStartY := y, inPath := true,
                placeX := (qs.getLastD (x, y)).1, placeY := (qs.getLastD (x, y)).2,
                lastKey := 'M' },
       SinkCall.moveTo x y :: qs.map (fun q => SinkCall.lineTo q.1 q.2), none) := by
  have hs := hasSetsOrMore_pairs p x y qs hp
  simp only [addSegSwitch]
  rw [if_pos (show ('M' = 'm' ∨ True) from Or.inr trivial),
      show (decide ('M' = 'm') : Bool) = false from rfl, hs]
  dsimp only
  rw [hp, getD_pairs_last_fst qs x y, getD_pairs_last_snd qs x y,
      show List.drop 2 (x :: y :: flattenPairs qs) = flattenPairs qs from rfl,
      lineToCalls_flattenPairs qs]
  rfl

/-- C4: CompilePath("M75 0, 0 200, 150 200 Z") emits to the sink exactly
move(75,0), line(0,200), line(150,200), close(), and the cursor ends at
(75,0); in general an absolute MoveTo dispatched on pairs (x,y) :: qs emits
a move for the first pair and one line per further pair, sets the path
start to (x,y), leaves the cursor at the last pair, and a following
argumentless ClosePath resets the cursor to (x,y). -/
theorem claim4_moveto_emits_move_lines_close :
    ((compilePath (newParser ErrorMode.ignore) pathTriangle).2 =
        ([SinkCall.moveTo 75 0, SinkCall.lineTo 0 200, SinkCall.lineTo 150 200,
          SinkCall.closePath], none))
    ∧ (compilePath (newParser ErrorMode.ignore) pathTriangle).1.placeX = 75
    ∧ (compilePath (newParser ErrorMode.ignore) pathTriangle).1.placeY = 0
    ∧ (∀ (p : Parser) (x y : ℚ) (qs : List (ℚ × ℚ)),
        (addSegSwitch { p with points := x :: y :: flattenPairs qs } 'M').2 =
          (SinkCall.moveTo x y :: qs.map (fun q => SinkCall.lineTo q.1 q.2), none)
        ∧ (addSegSwitch { p with points := x :: y :: flattenPairs qs } 'M').1.pathStartX = x
        ∧ (addSegSwitch { p with points := x :: y :: flattenPairs qs } 'M').1.pathStartY = y
        ∧ (addSegSwitch { p with points := x :: y :: flattenPairs qs } 'M').1.placeX =
            (qs.getLastD (x, y)).1
        ∧ (addSegSwitch { p with points := x :: y :: flattenPairs qs } 'M').1.placeY =
            (qs.getLastD (x, y)).2
        ∧ (addSeg (addSegSwitch { p with points := x :: y :: flattenPairs qs } 'M').1
            ['Z']).1.placeX = x
        ∧ (addSeg (addSegSwitch { p with points := x :: y :: flattenPairs qs } 'M').1
            ['Z']).1.placeY = y) := by
  refine ⟨by decide, by decide, by decide, fun p x y qs => ?_⟩
  have hM := addSegSwitch_M { p with points := x :: y :: flattenPairs qs } x y qs rfl
  rw [hM]
  refine ⟨rfl, rfl, rfl, rfl, rfl, ?_, ?_⟩ <;>
    simp [addSeg, getPoints, getPointsAux, addSegSwitch]

theorem claim4_witness :
    (addSegSwitch { newParser ErrorMode.ignore with
        points := (75 : ℚ) :: (0 : ℚ) :: flattenPairs [(0, 200), (150, 200)] } 'M').2 =
      (SinkCall.moveTo 75 0 :: [((0 : ℚ), (200 : ℚ)), (150, 200)].map
        (fun q => SinkCall.lineTo q.1 q.2), none) :=
  (claim4_moveto_emits_move_lines_close.2.2.2
    (newParser ErrorMode.ignore) 75 0 [(0, 200), (150, 200)]).1

/-- C5: a relative MoveTo that is the first command of a path string
resolves its coordinates against the origin (0,0): for every incoming
parser state whatsoever, CompilePath("m10 10") emits exactly move(10,10)
followed by the trailing close, because init resets the cursor, the points
buffer, the last command and the open-subpath flag at the start of every
CompilePath call, before any segment is processed (while pathStart, the
control point, the cur fields and the error mode are retained). -/
theorem claim5_relative_move_resolves_against_origin :
    (∀ p : Parser, (compilePath p pathRelMove).2 =
        ([SinkCall.moveTo 10 10, SinkCall.closePath], none))
    ∧ (∀ p : Parser, p.init.placeX = 0 ∧ p.init.placeY = 0 ∧ p.init.points = []
        ∧ p.init.lastKey = ' ' ∧ p.init.inPath = false
        ∧ p.init.errorMode = p.errorMode ∧ p.init.pathStartX = p.pathStartX
        ∧ p.init.pathStartY = p.pathStartY) := by
  constructor
  · intro p
    simp [compilePath, compilePathAux, addSeg, addSegSwitch, getPoints, getPointsAux,
      readFloat, readFloatAux, isSeparator, isCmdBoundary, listSub, Parser.init,
      hasSetsOrMore, pointsToAbs2, qAdd, parseFloat, trimSuffixes, strconvParseFloat,
      withExp, digitsToNat, lineToCalls, notImplLetter, pathRelMove]
  · intro p
    exact ⟨rfl, rfl, rfl, rfl, rfl, rfl, rfl, rfl⟩

theorem claim5_witness :
    (compilePath { newParser ErrorMode.ignore with
        placeX := 7, placeY := 8, inPath := true, lastKey := 'C' } pathRelMove).2 =
      ([SinkCall.moveTo 10 10, SinkCall.closePath], none) :=
  claim5_relative_move_resolves_against_origin.1
    { newParser ErrorMode.ignore with
        placeX := 7, placeY := 8, inPath := true, lastKey := 'C' }

/-- Case analysis of the addSeg switch: the dispatch errors with
ParamMismatch exactly when the command is m/M with a points count that is
not a positive multiple of two, or z/Z with a nonempty points list. -/
theorem addSegSwitch_paramMismatch_iff (p : Parser) (k : Char) :
    (addSegSwitch p k).2.2 = some Err.paramMismatch ↔
      ((k = 'm' ∨ k = 'M') ∧ ¬(2 ≤ p.points.length ∧ p.points.length % 2 = 0))
      ∨ ((k = 'z' ∨ k = 'Z') ∧ p.points ≠ []) := by
  by_cases hz : k = 'z' ∨ k = 'Z'
  · have hm : ¬(k = 'm' ∨ k = 'M') := by rcases hz with h | h <;> subst h <;> decide
    unfold addSegSwitch
    rw [if_pos hz]
    by_cases hlen : p.points.length ≠ 0
    · have hne : p.points ≠ [] := fun he => hlen (by simp [he])
      rw [if_pos hlen]
      simp [hz, hm, hne]
    · have heq : p.points = [] := List.eq_nil_of_length_eq_zero (not_not.mp hlen)
      rw [if_neg hlen]
      split_ifs <;> simp [hm, heq]
  · by_cases hm : k = 'm' ∨ k = 'M'
    · unfold addSegSwitch
      rw [if_neg hz, if_pos hm]
      unfold hasSetsOrMore
      by_cases hc : 2 ≤ p.points.length ∧ p.points.length % 2 = 0
      · rw [if_neg (not_not_intro hc)]
        cases hrel : (decide (k = 'm') : Bool) <;> simp [hrel, hz, hc]
      · rw [if_pos hc]
        simp [hm, hc]
    · unfold addSegSwitch
      rw [if_neg hz, if_neg hm]
      by_cases hv : k = 'v'
      · rw [if_pos hv]; simp [hz, hm]
      · rw [if_neg hv]
        by_cases hh : k = 'h'
        · rw [if_pos hh]; simp [hz, hm]
        · rw [if_neg hh]
          by_cases hni : notImplLetter k = true
          · rw [if_pos hni]; simp [hz, hm]
          · rw [if_neg hni]
            by_cases hstrict : p.errorMode = ErrorMode.strict
            · rw [if_pos hstrict]; simp [hz, hm]
            · rw [if_neg hstrict]; simp [hz, hm]

/-- Whenever the addSeg switch returns an error, it has emitted no sink
call: validation happens before emission. -/
theorem addSegSwitch_error_no_calls (p : Parser) (k : Char) :
    (addSegSwitch p k).2.2.isSome → (addSegSwitch p k).2.1 = [] := by
  unfold addSegSwitch
  split_ifs <;> try simp
  rcases h : hasSetsOrMore p 2 (decide (k = 'm')) with ⟨p2, b⟩
  cases b <;> simp

/-- Whenever addSeg returns an error, the segment has emitted no sink
call. -/
theorem addSeg_error_no_calls (p : Parser) (seg : List Char) :
    (addSeg p seg).2.2.isSome → (addSeg p seg).2.1 = [] := by
  match seg with
  | [] => simp [addSeg]
  | k :: rest =>
    simp only [addSeg]
    rcases hg : getPoints rest with ⟨pts, e⟩
    cases e with
    | some e => simp
    | none => exact addSegSwitch_error_no_calls { p with points := pts } k

/-- C6: CompilePath fails with ParamMismatch exactly when a MoveTo segment's
numeric argument count is not a positive multiple of 2 or when a ClosePath
segment carries numeric arguments (given that the segment's argument text
tokenizes without a parse error, which would abort earlier with a different
error); in the mismatch case no sink call is emitted for that segment; in
particular "M1 2 3" fails with ParamMismatch having emitted nothing. -/
theorem claim6_param_mismatch_exactly_on_bad_arity :
    (∀ (p : Parser) (k : Char) (rest : List Char),
        (getPoints rest).2 = none →
        ((addSeg p (k :: rest)).2.2 = some Err.paramMismatch ↔
          ((k = 'm' ∨ k = 'M') ∧
              ¬(2 ≤ (getPoints rest).1.length ∧ (getPoints rest).1.length % 2 = 0))
          ∨ ((k = 'z' ∨ k = 'Z') ∧ (getPoints rest).1 ≠ [])))
    ∧ (∀ (p : Parser) (seg : List Char),
        (addSeg p seg).2.2 = some Err.paramMismatch → (addSeg p seg).2.1 = [])
    ∧ (compilePath (newParser ErrorMode.ignore) pathOddArgs).2 =
        ([], some Err.paramMismatch) := by
  refine ⟨?_, ?_, by decide⟩
  · intro p k rest hg
    rcases he : getPoints rest with ⟨pts, e⟩
    rw [he] at hg
    simp only at hg
    subst hg
    have h := addSegSwitch_paramMismatch_iff { p with points := pts } k
    simp only [addSeg, he] at *
    simpa using h
  · intro p seg h
    exact addSeg_error_no_calls p seg (by simp [h])

theorem claim6_witness :
    (addSeg (newParser ErrorMode.ignore) ('M' :: "1 2 3".toList)).2.2 =
      some Err.paramMismatch := by
  have h := (claim6_param_mismatch_exactly_on_bad_arity.1
    (newParser ErrorMode.ignore) 'M' ("1 2 3".toList) (by decide)).mpr
  exact h (Or.inl ⟨Or.inr rfl, by decide⟩)

/-- On a letter with no dedicated case, the addSeg switch reaches the
default branch: fail in strict mode, skip (recording the letter as lastKey)
otherwise. -/
theorem addSegSwitch_unknown (p : Parser) (k : Char) (hrec : recognizedCmd k = false) :
    addSegSwitch p k =
      (if p.errorMode = ErrorMode.strict then (p, [], some Err.commandUnknown)
       else ({ p with lastKey := k }, [], none)) := by
  have h' := hrec
  simp only [recognizedCmd, Bool.or_eq_false_iff, beq_eq_false_iff_ne, ne_eq] at h'
  obtain ⟨⟨⟨⟨hz, hZ⟩, hm⟩, hM⟩, hni⟩ := h'
  have hkv : ¬(k = 'v') := fun h => by subst h; simp [notImplLetter] at hni
  have hkh : ¬(k = 'h') := fun h => by subst h; simp [notImplLetter] at hni
  have hni' : ¬(notImplLetter k = true) := by simp [hni]
  unfold addSegSwitch
  rw [if_neg (by tauto : ¬(k = 'z' ∨ k = 'Z')),
      if_neg (by tauto : ¬(k = 'm' ∨ k = 'M')),
      if_neg hkv, if_neg hkh, if_neg hni']

/-- C7: a segment whose command letter is not a recognized path command is
governed by ErrorMode — under Ignore and Warn the segment is skipped (no
sink call, arguments discarded, processing continues) and under Strict the
compile fails with UnknownCommand; in particular "M1 2 X5 5" succeeds under
Ignore/Warn and fails under Strict.  (The diagnostic log line of Warn is a
side channel outside the model.) -/
theorem claim7_unknown_command_governed_by_error_mode :
    (∀ (p : Parser) (k : Char) (rest : List Char),
        recognizedCmd k = false → (getPoints rest).2 = none →
        (p.errorMode ≠ ErrorMode.strict →
            addSeg p (k :: rest) =
              ({ p with points := (getPoints rest).1, lastKey := k }, [], none))
        ∧ (p.errorMode = ErrorMode.strict →
            addSeg p (k :: rest) =
              ({ p with points := (getPoints rest).1 }, [], some Err.commandUnknown)))
    ∧ (compilePath (newParser ErrorMode.ignore) pathUnknownX).2 =
        ([SinkCall.moveTo 1 2, SinkCall.closePath], none)
    ∧ (compilePath (newParser ErrorMode.warn) pathUnknownX).2 =
        ([SinkCall.moveTo 1 2, SinkCall.closePath], none)
    ∧ (compilePath (newParser ErrorMode.strict) pathUnknownX).2 =
        ([SinkCall.moveTo 1 2], some Err.commandUnknown) := by
  refine ⟨?_, by decide, by decide, by decide⟩
  intro p k rest hrec hg
  rcases he : getPoints rest with ⟨pts, e⟩
  rw [he] at hg
  simp only at hg
  subst hg
  have h := addSegSwitch_unknown { p with points := pts } k hrec
  constructor
  · intro hns
    simp only [addSeg, he, h]
    simp [hns]
  · intro hs
    simp only [addSeg, he, h]
    simp [hs]

theorem claim7_witness :
    addSeg (newParser ErrorMode.ignore) ('X' :: "5 5".toList) =
      ({ newParser ErrorMode.ignore with points := [5, 5], lastKey := 'X' }, [], none) := by
  have h := (claim7_unknown_command_governed_by_error_mode.1
    (newParser ErrorMode.ignore) 'X' ("5 5".toList) (by decide) (by decide)).1
    (by decide)
  rw [h]
  decide

/-- C8: CompilePath is the fold of addSeg over the split segments, and when
a segment errors the error is returned immediately: later segments change
nothing, the erroring run's result is exactly the successful prefix's calls
followed by the erroring segment's calls (which stand, with no rollback),
and the trailing close of the success path is never emitted on the error
path. -/
theorem claim8_error_aborts_immediately :
    (∀ (p : Parser) (s : List Char),
        compilePath p s = postClose (runSegs p.init (splitSegments s)))
    ∧ (∀ (p : Parser) (segs1 segs2 : List (List Char)),
        (runSegs p segs1).2.2.isSome → runSegs p (segs1 ++ segs2) = runSegs p segs1)
    ∧ (∀ (p : Parser) (segs1 : List (List Char)) (seg : List Char)
        (segs2 : List (List Char)) (e : Err),
        (runSegs p segs1).2.2 = none →
        (addSeg (runSegs p segs1).1 seg).2.2 = some e →
        runSegs p (segs1 ++ seg :: segs2) =
          ((addSeg (runSegs p segs1).1 seg).1,
           (runSegs p segs1).2.1 ++ (addSeg (runSegs p segs1).1 seg).2.1, some e))
    ∧ (∀ (p : Parser) (s : List Char),
        (compilePath p s).2.2.isSome →
        SinkCall.closePath ∉ (compilePath p s).2.1) := by
  refine ⟨compilePath_eq_postClose,
    fun p s1 s2 h => runSegs_append_of_isSome s1 p s2 h,
    fun p s1 seg s2 e h1 h2 => runSegs_error_decompose s1 p seg s2 e h1 h2, ?_⟩
  intro p s herr
  rw [compilePath_eq_postClose] at herr ⊢
  rcases hr : runSegs p.init (splitSegments s) with ⟨q, t, e⟩
  have hnc := runSegs_trace_no_closePath (splitSegments s) p.init
  rw [hr] at hnc herr
  cases e with
  | none => simp [postClose] at herr
  | some e => simpa [postClose] using hnc

theorem claim8_witness :
    runSegs (newParser ErrorMode.ignore) ([['L', '1']] ++ [['M', '2']]) =
      runSegs (newParser ErrorMode.ignore) [['L', '1']] :=
  claim8_error_aborts_immediately.2.1 (newParser ErrorMode.ignore)
    [['L', '1']] [['M', '2']] (by decide)

/-- The not-implemented letters short-circuit the switch with
errNotImplemented, emitting nothing, for every parser state (hence every
ErrorMode) and every points content (hence no arity check). -/
theorem addSegSwitch_notImplemented (p : Parser) (k : Char)
    (h : notImplLetter k = true) :
    (addSegSwitch p k).2 = ([], some Err.notImplemented) := by
  have hz : ¬(k = 'z' ∨ k = 'Z') := by
    rintro (rfl | rfl) <;> simp [notImplLetter] at h
  have hm : ¬(k = 'm' ∨ k = 'M') := by
    rintro (rfl | rfl) <;> simp [notImplLetter] at h
  unfold addSegSwitch
  rw [if_neg hz, if_neg hm]
  by_cases hv : k = 'v'
  · rw [if_pos hv]
  · rw [if_neg hv]
    by_cases hh : k = 'h'
    · rw [if_pos hh]
    · rw [if_neg hh, if_pos h]

/-- C9 counterexample: the claim that a recognized but unimplemented letter
always yields NotImplemented regardless of the segment's argument text is
false at the explicit input "L.": tokenizing "." fails inside GetPoints
first, so CompilePath returns the float parse error, not NotImplemented. -/
theorem claim9_counterexample :
    (compilePath (newParser ErrorMode.ignore) pathBadFloat).2 =
      ([], some Err.parseFailure)
    ∧ some Err.parseFailure ≠ some Err.notImplemented := by
  exact ⟨by decide, by decide⟩

/-- C9 amended: every recognized but not-yet-implemented command letter
(L, l, H, h, V, v, C, c, S, s, Q, q, T, t, A, a) whose argument text
tokenizes without a parse error is fatal in all three ErrorModes:
addSeg returns NotImplemented regardless of the parser state (hence of the
ErrorMode) and of the argument count (arity is never checked), emitting no
sink call; when tokenizing the argument text itself fails, that parse error
is returned instead. -/
theorem claim9_not_implemented_always_fatal :
    (∀ (p : Parser) (k : Char) (rest : List Char),
        notImplLetter k = true → (getPoints rest).2 = none →
        (addSeg p (k :: rest)).2 = ([], some Err.notImplemented))
    ∧ (compilePath (newParser ErrorMode.ignore) pathNotImpl).2 =
        ([SinkCall.moveTo 1 2], some Err.notImplemented)
    ∧ (compilePath (newParser ErrorMode.warn) pathNotImpl).2 =
        ([SinkCall.moveTo 1 2], some Err.notImplemented)
    ∧ (compilePath (newParser ErrorMode.strict) pathNotImpl).2 =
        ([SinkCall.moveTo 1 2], some Err.notImplemented) := by
  refine ⟨?_, by decide, by decide, by decide⟩
  intro p k rest hk hg
  rcases he : getPoints rest with ⟨pts, e⟩
  rw [he] at hg
  simp only at hg
  subst hg
  simp only [addSeg, he]
  exact addSegSwitch_notImplemented { p with points := pts } k hk

theorem claim9_witness :
    (addSeg (newParser ErrorMode.strict) ('L' :: "3 4 5".toList)).2 =
      ([], some Err.notImplemented) :=
  claim9_not_implemented_always_fatal.1 (newParser ErrorMode.strict) 'L'
    ("3 4 5".toList) (by decide) (by decide)

/-- C10: every successful CompilePath emits exactly one closePath, as its
final sink call, even when the path string contains no z/Z command
(including the empty string); a z/Z segment itself emits no sink call — it
only resets the cursor to the path-start point and clears the open-subpath
flag. -/
theorem claim10_exactly_one_trailing_close :
    (∀ (p : Parser) (s : List Char), (compilePath p s).2.2 = none →
        ∃ t, (compilePath p s).2.1 = t ++ [SinkCall.closePath]
          ∧ SinkCall.closePath ∉ t)
    ∧ (∀ p : Parser, (compilePath p ([] : List Char)).2 = ([SinkCall.closePath], none))
    ∧ (∀ (p : Parser) (k : Char), (k = 'z' ∨ k = 'Z') →
        addSeg p [k] =
          (if p.inPath then
            { p with points := [], placeX := p.pathStartX, placeY := p.pathStartY,
                     inPath := false, lastKey := k }
           else { p with points := [], lastKey := k }, [], none)) := by
  refine ⟨?_, fun p => rfl, ?_⟩
  · intro p s h
    rw [compilePath_eq_postClose] at h ⊢
    rcases hr : runSegs p.init (splitSegments s) with ⟨q, t, e⟩
    have hnc := runSegs_trace_no_closePath (splitSegments s) p.init
    rw [hr] at hnc h
    cases e with
    | some e => simp [postClose] at h
    | none => exact ⟨t, by simp [postClose], hnc⟩
  · intro p k hk
    rcases hk with rfl | rfl <;> by_cases hip : p.inPath <;>
      simp [addSeg, addSegSwitch, getPoints, getPointsAux, hip]

theorem claim10_witness :
    ∃ t, (compilePath (newParser ErrorMode.ignore) pathRelMove).2.1 =
        t ++ [SinkCall.closePath] ∧ SinkCall.closePath ∉ t :=
  claim10_exactly_one_trailing_close.1 (newParser ErrorMode.ignore) pathRelMove
    (by decide)

end Svgg
